import Mathlib

/-!
Verification of the HustleHub salary-prediction script
(`src/ai_salary_prediction.py`) against its natural-language specification.

The script is a linear sequence: load a salary table, drop rows with
missing values (`df.dropna()`), split into train/test subsets
(`train_test_split(..., test_size=0.2, random_state=42)`), fit ordinary
least squares (`LinearRegression`), label-encode the job-title column
(`LabelEncoder.fit_transform`, which assigns codes to the *sorted*
distinct values), predict, and report `mean_squared_error` / `r2_score`.

We embed the table, the cleaning step, the label encoder, the
single-feature OLS fit, the metrics, the seeded split and the final
rupee conversion as executable Lean definitions over `ℚ` (the script's
floating-point arithmetic modelled exactly) and prove the spec's claims
about them.
-/

namespace SalaryPrediction

/-- A row of `Salary_Data.csv` as the script uses it: the
`Years of Experience`, `Job Title` and `Salary` columns.  A `none` field
is a missing value (pandas `NaN`). -/
structure Row where
  years : Option ℚ
  title : Option String
  salary : Option ℚ
  deriving DecidableEq, Repr

/-- A row is complete when no field is missing. -/
def Row.complete (r : Row) : Bool :=
  r.years.isSome && r.title.isSome && r.salary.isSome

/-- Model of `df.dropna()` (line 60): returns the sub-table of the rows
with no missing value; the input table is a value and is not modified. -/
def dropna (t : List Row) : List Row :=
  t.filter Row.complete

/-- Lexicographic order on the character sequences of two strings: the
order `numpy.unique` sorts string labels by. -/
def strLe (a b : String) : Prop := a.data ≤ b.data

instance : DecidableRel strLe := fun a b => inferInstanceAs (Decidable (a.data ≤ b.data))

instance : IsTotal String strLe := ⟨fun a b => le_total a.data b.data⟩

instance : IsTrans String strLe := ⟨fun _ _ _ h1 h2 => le_trans h1 h2⟩

instance : IsAntisymm String strLe := ⟨fun _ _ h1 h2 => String.ext (le_antisymm h1 h2)⟩

/-- Model of `LabelEncoder.fit`, the fit half of `le.fit_transform`
(line 95): the fitted classes are the distinct input values in sorted
order (`numpy.unique`). -/
def leFit (values : List String) : List String :=
  values.dedup.insertionSort strLe

/-- Model of `le.transform([v])[0]` (lines 123, 134): the code of `v` is
its index in the sorted class list; an unseen value raises a
`ValueError` (here: `none`).  The encoder's fitted classes are not
modified by a transform. -/
def leTransform (classes : List String) (v : String) : Option ℕ :=
  if v ∈ classes then some (classes.indexOf v) else none

/-- Model of `le.inverse_transform([c])[0]`: the class stored at index
`c`; an out-of-range code raises (here: `none`). -/
def leDecode (classes : List String) (c : ℕ) : Option String :=
  classes.get? c

/-- The code a value would get if codes were assigned in order of first
appearance in the input sequence (the spec's wording for fit); written
out to compare with what `leFit` actually assigns. -/
def firstAppearanceCode (values : List String) (v : String) : Option ℕ :=
  if v ∈ values.dedup then some (values.dedup.indexOf v) else none

/-- The two-feature fitted model of lines 105-106: one weight per
feature (years of experience, encoded job title) plus an intercept. -/
structure FittedModel2 where
  w1 : ℚ
  w2 : ℚ
  b : ℚ
  deriving DecidableEq, Repr

/-- Model of `model.predict([[x1, x2]])[0]` (lines 126, 137): dot
product of weights and features plus intercept. -/
def predict2 (m : FittedModel2) (x1 x2 : ℚ) : ℚ :=
  m.w1 * x1 + m.w2 * x2 + m.b

/-- The encoder state the script keeps in the global `le`: its fitted
class list. -/
structure Encoder where
  classes : List String
  deriving DecidableEq, Repr

/-- Model of the script's prediction-for-one-input block (lines
129-137): encode the job title with the already-fitted `le`, then
predict; the encoder state after the call is returned alongside.  A
failed transform raises before `predict` runs and refits nothing. -/
def predictOne (e : Encoder) (m : FittedModel2) (yrs : ℚ) (title : String) :
    Option ℚ × Encoder :=
  match leTransform e.classes title with
  | none => (none, e)
  | some c => (some (predict2 m yrs (c : ℚ)), e)

/-- Model of `LinearRegression().fit` on a single feature (lines 71-72):
the closed-form ordinary-least-squares slope and intercept.  `none` when
the normal equations are degenerate (all feature values equal). -/
def fitSimple (pts : List (ℚ × ℚ)) : Option (ℚ × ℚ) :=
  let n : ℚ := pts.length
  let sx := (pts.map Prod.fst).sum
  let sy := (pts.map Prod.snd).sum
  let sxx := (pts.map (fun p => p.1 * p.1)).sum
  let sxy := (pts.map (fun p => p.1 * p.2)).sum
  let d := n * sxx - sx * sx
  if d = 0 then none
  else
    let w := (n * sxy - sx * sy) / d
    some (w, (sy - w * sx) / n)

/-- Model of `model.predict([[x]])[0]` for the single-feature model
(line 84): slope times feature plus intercept. -/
def predictSimple (m : ℚ × ℚ) (x : ℚ) : ℚ :=
  m.1 * x + m.2

/-- The training rows of the spec's concrete scenario:
(years of experience, salary) pairs. -/
def scenarioTrain : List (ℚ × ℚ) :=
  [(1, 45000), (2, 50000), (3, 60000), (4, 65000), (5, 70000)]

/-- Model of `mean_squared_error(y_test, y_pred)` (line 52): the average
of squared differences; `none` on empty or mismatched inputs. -/
def mse (pred act : List ℚ) : Option ℚ :=
  if act.length = 0 ∨ pred.length ≠ act.length then none
  else some ((List.zipWith (fun p a => (p - a) ^ 2) pred act).sum / (act.length : ℚ))

/-- Arithmetic mean of a list of rationals. -/
def mean (l : List ℚ) : ℚ := l.sum / (l.length : ℚ)

/-- Model of `r2_score(y_test, y_pred)` (line 53): one minus the ratio
of the sum of squared residuals to the sum of squared deviations of the
actuals from their mean; `none` on empty or mismatched inputs.  When the
deviation sum is zero (constant actuals), `r2_score` reports 1.0 for a
zero residual sum and 0.0 otherwise. -/
def r2 (pred act : List ℚ) : Option ℚ :=
  if act.length = 0 ∨ pred.length ≠ act.length then none
  else
    let ssRes := (List.zipWith (fun p a => (a - p) ^ 2) pred act).sum
    let ssTot := (act.map (fun a => (a - mean act) ^ 2)).sum
    if ssTot = 0 then (if ssRes = 0 then some 1 else some 0)
    else some (1 - ssRes / ssTot)

/-- A linear congruential step: the seed update of the pseudorandom
stream that drives the shuffle. -/
def lcg (s : ℕ) : ℕ := (1103515245 * s + 12345) % 2147483648

/-- Remove and return the element at position `i` of a list (last
element when `i` is out of range of a nonempty list; `0` for `[]`). -/
def extractAt : List ℕ → ℕ → ℕ × List ℕ
  | [], _ => (0, [])
  | x :: _xs, 0 => (x, _xs)
  | x :: xs, n + 1 =>
    let r := extractAt xs n
    (r.1, x :: r.2)

/-- Seed-driven Fisher-Yates draw of `k` elements from a pool. -/
def shuffleGo : ℕ → List ℕ → ℕ → List ℕ
  | 0, _, _ => []
  | k + 1, l, s =>
    let r := extractAt l (s % (k + 1))
    r.1 :: shuffleGo k r.2 (lcg s)

/-- Model of the index permutation that `train_test_split(...,
random_state=seed)` draws for `n` rows: a deterministic function of the
seed and the row count alone (the library shuffles `range(n)` with a
generator seeded by `random_state`). -/
def permutation (seed n : ℕ) : List ℕ :=
  shuffleGo n (List.range n) seed

/-- Number of held-out rows: `ceil(test_size * n)`, as
`train_test_split` computes for a fractional `test_size`. -/
def nTest (frac : ℚ) (n : ℕ) : ℕ := (frac * (n : ℚ)).ceil.toNat

/-- Indices of the test rows: the first `nTest` entries of the permuted
index list. -/
def testIndices (seed : ℕ) (frac : ℚ) (n : ℕ) : List ℕ :=
  (permutation seed n).take (nTest frac n)

/-- Indices of the training rows: the remaining entries. -/
def trainIndices (seed : ℕ) (frac : ℚ) (n : ℕ) : List ℕ :=
  (permutation seed n).drop (nTest frac n)

/-- Select the rows of a table at a list of indices. -/
def selectRows (t : List Row) (idxs : List ℕ) : List Row :=
  idxs.filterMap t.get?

/-- Years-of-experience field of a row, `0` when missing (the pipeline
only reads it after `dropna`). -/
def Row.yearsD (r : Row) : ℚ := r.years.getD 0

/-- Salary field of a row, `0` when missing. -/
def Row.salaryD (r : Row) : ℚ := r.salary.getD 0

/-- Model of the script's single-feature pipeline (lines 60-80): clean,
split by seed and test fraction, fit ordinary least squares on the
training rows, predict the held-out rows and report
`(mean_squared_error, r2_score)`. -/
def runPipeline (t : List Row) (seed : ℕ) (frac : ℚ) :
    Option (Option ℚ × Option ℚ) :=
  let cleaned := dropna t
  let n := cleaned.length
  let train := selectRows cleaned (trainIndices seed frac n)
  let test := selectRows cleaned (testIndices seed frac n)
  match fitSimple (train.map fun r => (r.yearsD, r.salaryD)) with
  | none => none
  | some m =>
    let preds := test.map fun r => predictSimple m r.yearsD
    let actuals := test.map Row.salaryD
    some (mse preds actuals, r2 preds actuals)

/-- A row after line 95 replaced the `Job Title` column with its integer
codes: same years and salary, job title now a code. -/
structure RowE where
  years : Option ℚ
  titleCode : Option ℕ
  salary : Option ℚ
  deriving DecidableEq, Repr

/-- Model of `df['Job Title'] = le.fit_transform(df['Job Title'])`
(line 95): fit the encoder on the job-title column and replace each
title by its code, row for row; no row is added or removed. -/
def encodeTable (t : List Row) : List RowE :=
  t.map fun r =>
    ⟨r.years, r.title.bind (leTransform (leFit (t.filterMap Row.title))), r.salary⟩

/-- Model of the final conversion (lines 134-140): encode
`'Data Analyst'` with the fitted encoder, predict with the two-feature
model at 5 years, and divide the prediction by 30 for the printed
per-day value. -/
def finalPerDay (classes : List String) (m : FittedModel2) : Option ℚ :=
  (leTransform classes "Data Analyst").map fun c => predict2 m 5 (c : ℚ) / 30

/-- C1: for every sequence of category strings used to fit the encoder
and every value `v` that appears in it, decoding the code produced by
encoding `v` under the fitted encoding returns `v` itself. -/
theorem encoder_round_trip (values : List String) (v : String) (h : v ∈ values) :
    ∃ c, leTransform (leFit values) v = some c ∧ leDecode (leFit values) c = some v := by
  have hv : v ∈ leFit values :=
    ((List.perm_insertionSort strLe values.dedup).mem_iff).mpr (List.mem_dedup.mpr h)
  have hlt : (leFit values).indexOf v < (leFit values).length :=
    List.indexOf_lt_length.mpr hv
  refine ⟨(leFit values).indexOf v, ?_, ?_⟩
  · simp [leTransform, hv]
  · rw [leDecode, List.get?_eq_get hlt, List.indexOf_get hlt]

/-- Witness for `encoder_round_trip` at a concrete fit sequence and
value. -/
theorem encoder_round_trip_witness :
    ∃ c, leTransform (leFit ["Data Scientist", "Data Analyst"]) "Data Analyst" = some c ∧
      leDecode (leFit ["Data Scientist", "Data Analyst"]) c = some "Data Analyst" :=
  encoder_round_trip ["Data Scientist", "Data Analyst"] "Data Analyst" (by decide)

/-- C2 (counterexample): fitting on `["b", "a"]` would give `"b"` code 0
under first-appearance order, but the encoder assigns it code 1 (codes
follow the sorted order of the distinct values). -/
theorem encoder_fit_order_counterexample :
    firstAppearanceCode ["b", "a"] "b" = some 0 ∧
    leTransform (leFit ["b", "a"]) "b" = some 1 ∧
    firstAppearanceCode ["b", "a"] "b" ≠ leTransform (leFit ["b", "a"]) "b" := by
  decide

/-- C2 (amended): fitting assigns each distinct input value a unique
integer code in sorted (lexicographic) order of the distinct values:
the class list is sorted and duplicate-free, holds exactly the input's
values, distinct values get distinct codes, and the assignment is
determined by the set of input values alone. -/
theorem encoder_fit_sorted_order (values : List String) :
    (leFit values).Sorted strLe ∧ (leFit values).Nodup ∧
    (∀ v, v ∈ leFit values ↔ v ∈ values) ∧
    (∀ v w, v ∈ values → w ∈ values → v ≠ w →
      leTransform (leFit values) v ≠ leTransform (leFit values) w) ∧
    (∀ values' : List String, (∀ v, v ∈ values' ↔ v ∈ values) →
      leFit values' = leFit values) := by
  have hperm : (leFit values).Perm values.dedup := List.perm_insertionSort strLe values.dedup
  have hmem : ∀ v, v ∈ leFit values ↔ v ∈ values := fun v =>
    (hperm.mem_iff).trans List.mem_dedup
  refine ⟨List.sorted_insertionSort strLe values.dedup,
    hperm.nodup_iff.mpr (List.nodup_dedup values), hmem, ?_, ?_⟩
  · intro v w hv hw hne heq
    have hv' : v ∈ leFit values := (hmem v).mpr hv
    have hw' : w ∈ leFit values := (hmem w).mpr hw
    rw [leTransform, leTransform, if_pos hv', if_pos hw'] at heq
    exact hne ((List.indexOf_inj hv' hw').mp (Option.some.inj heq))
  · intro values' hmem'
    have hd : values'.dedup.Perm values.dedup := by
      rw [List.perm_ext_iff_of_nodup (List.nodup_dedup _) (List.nodup_dedup _)]
      intro a
      rw [List.mem_dedup, List.mem_dedup]
      exact hmem' a
    exact List.eq_of_perm_of_sorted
      ((List.perm_insertionSort strLe values'.dedup).trans
        (hd.trans (List.perm_insertionSort strLe values.dedup).symm))
      (List.sorted_insertionSort strLe _) (List.sorted_insertionSort strLe _)

/-- C3: encoding (via the prediction block) a category string not
present at fit time fails and leaves the encoder unchanged: the result
is the error value, the encoder state after the call equals the fitted
one, and every fit-time value still encodes to the same (defined)
code. -/
theorem predictOne_unseen_fails_preserves (values : List String) (m : FittedModel2)
    (yrs : ℚ) (title : String) (h : title ∉ values) :
    (predictOne ⟨leFit values⟩ m yrs title).1 = none ∧
    (predictOne ⟨leFit values⟩ m yrs title).2 = ⟨leFit values⟩ ∧
    ∀ v ∈ values,
      leTransform (predictOne ⟨leFit values⟩ m yrs title).2.classes v =
        leTransform (leFit values) v ∧
      ∃ c, leTransform (leFit values) v = some c := by
  have hnv : title ∉ leFit values := fun hmem =>
    h (List.mem_dedup.mp ((List.perm_insertionSort strLe values.dedup).mem_iff.mp hmem))
  have ht : leTransform (leFit values) title = none := by simp [leTransform, hnv]
  refine ⟨by simp [predictOne, ht], by simp [predictOne, ht], ?_⟩
  intro v hv
  have hv' : v ∈ leFit values :=
    ((List.perm_insertionSort strLe values.dedup).mem_iff).mpr (List.mem_dedup.mpr hv)
  exact ⟨by simp [predictOne, ht], (leFit values).indexOf v, by simp [leTransform, hv']⟩

/-- Witness for `predictOne_unseen_fails_preserves`: a job title never
seen during fitting. -/
theorem predictOne_unseen_witness :
    (predictOne ⟨leFit ["Data Scientist"]⟩ ⟨1, 1, 0⟩ 5 "Data Analyst").1 = none ∧
    (predictOne ⟨leFit ["Data Scientist"]⟩ ⟨1, 1, 0⟩ 5 "Data Analyst").2 =
      ⟨leFit ["Data Scientist"]⟩ ∧
    ∀ v ∈ ["Data Scientist"],
      leTransform (predictOne ⟨leFit ["Data Scientist"]⟩ ⟨1, 1, 0⟩ 5 "Data Analyst").2.classes v =
        leTransform (leFit ["Data Scientist"]) v ∧
      ∃ c, leTransform (leFit ["Data Scientist"]) v = some c :=
  predictOne_unseen_fails_preserves ["Data Scientist"] ⟨1, 1, 0⟩ 5 "Data Analyst" (by decide)

/-- C4: for every input table with at least one complete row, the
cleaned table contains no row with a missing field and is an
order-preserving subsequence of the input's rows (the input, a value,
is untouched). -/
theorem cleaner_correct (t : List Row) (h : ∃ r ∈ t, r.complete = true) :
    (dropna t).Sublist t ∧ ∀ r ∈ dropna t, r.complete = true :=
  ⟨List.filter_sublist t, fun _ hr => (List.mem_filter.mp hr).2⟩

/-- Witness for `cleaner_correct` at a one-row complete table. -/
theorem cleaner_correct_witness :
    (dropna [⟨some 1, some "a", some 45000⟩]).Sublist [⟨some 1, some "a", some 45000⟩] ∧
    ∀ r ∈ dropna [⟨some 1, some "a", some 45000⟩], r.complete = true :=
  cleaner_correct [⟨some 1, some "a", some 45000⟩] ⟨⟨some 1, some "a", some 45000⟩, by simp, by rfl⟩

/-- C5 (counterexample): on a table whose only row has every field
missing, cleaning returns the empty table as an ordinary value; no
error is signalled. -/
theorem cleaner_empty_counterexample :
    (∀ r ∈ [Row.mk none none none], r.complete = false) ∧
    dropna [Row.mk none none none] = [] := by
  decide

/-- C5 (amended): for every input table in which every row has at least
one missing field, cleaning returns the empty table (the script's
`dropna` never raises). -/
theorem cleaner_empty_amended (t : List Row) (h : ∀ r ∈ t, r.complete = false) :
    dropna t = [] := by
  rw [dropna, List.filter_eq_nil_iff]
  intro r hr
  simp [h r hr]

/-- Witness for `cleaner_empty_amended` at a one-row incomplete
table. -/
theorem cleaner_empty_amended_witness :
    dropna [Row.mk none (some "a") none] = [] :=
  cleaner_empty_amended [Row.mk none (some "a") none] (by decide)

/-- C6: two pipeline runs with identical input table, split seed and
test fraction produce identical evaluation results: every stage (split,
fit, predict, evaluate) is a deterministic function of those inputs. -/
theorem pipeline_deterministic (t₁ t₂ : List Row) (s₁ s₂ : ℕ) (f₁ f₂ : ℚ)
    (ht : t₁ = t₂) (hs : s₁ = s₂) (hf : f₁ = f₂) :
    runPipeline t₁ s₁ f₁ = runPipeline t₂ s₂ f₂ := by
  rw [ht, hs, hf]

/-- Witness for `pipeline_deterministic`: two runs on a concrete
five-row table with seed 42 and test fraction 1/5. -/
theorem pipeline_deterministic_witness :
    runPipeline [⟨some 1, some "a", some 45000⟩, ⟨some 2, some "b", some 50000⟩,
        ⟨some 3, some "a", some 60000⟩, ⟨some 4, some "b", some 65000⟩,
        ⟨some 5, some "a", some 70000⟩] 42 (1 / 5) =
      runPipeline [⟨some 1, some "a", some 45000⟩, ⟨some 2, some "b", some 50000⟩,
        ⟨some 3, some "a", some 60000⟩, ⟨some 4, some "b", some 65000⟩,
        ⟨some 5, some "a", some 70000⟩] 42 (1 / 5) :=
  pipeline_deterministic _ _ _ _ _ _ rfl rfl rfl

/-- C7 (counterexample): ordinary least squares on the scenario's five
training rows gives slope 6500 and intercept 38500, so the prediction
at 5.0 years is 71000, which does not lie strictly below the maximum
training target 70000. -/
theorem scenario_prediction_counterexample :
    fitSimple scenarioTrain = some (6500, 38500) ∧
    predictSimple (6500, 38500) 5 = 71000 ∧
    ¬ predictSimple (6500, 38500) 5 < 70000 := by
  refine ⟨by norm_num [fitSimple, scenarioTrain], by norm_num [predictSimple],
    by norm_num [predictSimple]⟩

/-- C7 (amended): the least-squares prediction at 5.0 years of
experience equals 71000: it lies strictly above the minimum training
target 45000 and strictly closer to 70000 than to 45000, but strictly
above (not below) the maximum training target 70000. -/
theorem scenario_prediction_amended :
    ∃ m, fitSimple scenarioTrain = some m ∧
      predictSimple m 5 = 71000 ∧
      45000 < predictSimple m 5 ∧
      70000 < predictSimple m 5 ∧
      |predictSimple m 5 - 70000| < |predictSimple m 5 - 45000| := by
  refine ⟨(6500, 38500), by norm_num [fitSimple, scenarioTrain], ?_, ?_, ?_, ?_⟩ <;>
    norm_num [predictSimple]

/-- Summing an elementwise combination of a list with itself gives zero
when the combining function vanishes on the diagonal. -/
theorem sum_zipWith_self_eq_zero (f : ℚ → ℚ → ℚ) (hf : ∀ x, f x x = 0) :
    ∀ y : List ℚ, (List.zipWith f y y).sum = 0
  | [] => rfl
  | a :: l => by simp [hf, sum_zipWith_self_eq_zero f hf l]

/-- C8: evaluating predictions equal to the actuals on a non-empty,
non-constant sequence yields mean squared error 0 and R-squared 1. -/
theorem evaluate_self_identity (y : List ℚ) (hne : y ≠ [])
    (hnc : ∃ a ∈ y, ∃ b ∈ y, a ≠ b) :
    mse y y = some 0 ∧ r2 y y = some 1 := by
  have hlen : y.length ≠ 0 := fun h => hne (List.length_eq_zero.mp h)
  have hmse : (List.zipWith (fun p a => (p - a) ^ 2) y y).sum = 0 :=
    sum_zipWith_self_eq_zero _ (fun x => by ring) y
  have hres : (List.zipWith (fun p a => (a - p) ^ 2) y y).sum = 0 :=
    sum_zipWith_self_eq_zero _ (fun x => by ring) y
  refine ⟨by simp [mse, hlen, hmse], ?_⟩
  by_cases h0 : (y.map (fun a => (a - mean y) ^ 2)).sum = 0
  · simp [r2, hlen, hres, h0]
  · simp [r2, hlen, hres, h0]

/-- Witness for `evaluate_self_identity` at the sequence `[1, 2]`. -/
theorem evaluate_self_identity_witness :
    mse [1, 2] [1, 2] = some 0 ∧ r2 [1, 2] [1, 2] = some 1 :=
  evaluate_self_identity [1, 2] (by simp) ⟨1, by simp, 2, by simp, by norm_num⟩

/-- C9: whenever the fitted encoder knows `'Data Analyst'`, the printed
per-day value is the two-feature prediction divided by 30, and (for a
nonzero prediction) differs from the prediction divided by 90 that the
adjacent comment claims. -/
theorem final_rupee_conversion (classes : List String) (m : FittedModel2)
    (h : "Data Analyst" ∈ classes) :
    finalPerDay classes m =
      some (predict2 m 5 ((classes.indexOf "Data Analyst" : ℕ) : ℚ) / 30) ∧
    (predict2 m 5 ((classes.indexOf "Data Analyst" : ℕ) : ℚ) ≠ 0 →
      finalPerDay classes m ≠
        some (predict2 m 5 ((classes.indexOf "Data Analyst" : ℕ) : ℚ) / 90)) := by
  have henc : leTransform classes "Data Analyst" = some (classes.indexOf "Data Analyst") := by
    simp [leTransform, h]
  refine ⟨by simp [finalPerDay, henc], ?_⟩
  intro hp hcontra
  rw [finalPerDay, henc] at hcontra
  simp at hcontra
  have h9 := (div_eq_div_iff (by norm_num : (30 : ℚ) ≠ 0)
    (by norm_num : (90 : ℚ) ≠ 0)).mp hcontra
  exact hp (by linarith)

/-- Witness for `final_rupee_conversion` at a concrete encoder and a
model whose prediction is the nonzero value 30. -/
theorem final_rupee_conversion_witness :
    (finalPerDay (leFit ["Data Analyst"]) ⟨0, 0, 30⟩ =
      some (predict2 ⟨0, 0, 30⟩ 5
        (((leFit ["Data Analyst"]).indexOf "Data Analyst" : ℕ) : ℚ) / 30) ∧
    (predict2 ⟨0, 0, 30⟩ 5 (((leFit ["Data Analyst"]).indexOf "Data Analyst" : ℕ) : ℚ) ≠ 0 →
      finalPerDay (leFit ["Data Analyst"]) ⟨0, 0, 30⟩ ≠
        some (predict2 ⟨0, 0, 30⟩ 5
          (((leFit ["Data Analyst"]).indexOf "Data Analyst" : ℕ) : ℚ) / 90))) :=
  final_rupee_conversion (leFit ["Data Analyst"]) ⟨0, 0, 30⟩ (by decide)

/-- Salary column read through the encoded table equals the one read
through the original table at every index: the encoding replaces only
the job-title column. -/
theorem encodeTable_get_salary (t : List Row) (i : ℕ) :
    ((encodeTable t).get? i).map RowE.salary = (t.get? i).map Row.salary := by
  rw [encodeTable, List.get?_map]
  cases t.get? i <;> rfl

/-- C10: the encoded table has exactly the rows of the cleaned table
(the encoding rewrites a column, removing no row), so the seeded split
selects the same train/test index partition for both, and the held-out
salary sequence read off the encoded table equals the one read off the
original table. -/
theorem split_partition_agreement (t : List Row) (seed : ℕ) (frac : ℚ) :
    (encodeTable t).length = t.length ∧
    testIndices seed frac (encodeTable t).length = testIndices seed frac t.length ∧
    trainIndices seed frac (encodeTable t).length = trainIndices seed frac t.length ∧
    (testIndices seed frac (encodeTable t).length).map
        (fun i => ((encodeTable t).get? i).map RowE.salary) =
      (testIndices seed frac t.length).map (fun i => (t.get? i).map Row.salary) := by
  have hlen : (encodeTable t).length = t.length := List.length_map _ _
  refine ⟨hlen, by rw [hlen], by rw [hlen], ?_⟩
  rw [hlen]
  simp only [encodeTable_get_salary]

end SalaryPrediction
